import Mathlib

/-!
Verification of the download-orchestration client of the Get-Invoices
frontend (src/frontend/src/services/api.ts, src/frontend/src/App.tsx,
src/frontend/src/components/StatusDisplay.tsx).

The embedding works at the level of decoded text: the browser TextDecoder
with the stream option reassembles UTF-8 code points across byte-chunk
boundaries, so each network chunk is modelled as the string it decodes to,
and strings are modelled as lists of characters where the code indexes or
splits them.  JavaScript runtime values appearing in payloads are modelled
by the inductive type JsonVal; JSON.parse is modelled by jsonParse below
(number literals are parsed exactly into rationals; the model is liberal
about leading zeros, which real JSON.parse rejects, and strict about
nothing else of relevance to the streamed payloads of this protocol).
-/

/-- A JavaScript value produced by JSON.parse. -/
inductive JsonVal where
  | null
  | bool (b : Bool)
  | num (q : ℚ)
  | str (s : String)
  | arr (elems : List JsonVal)
  | obj (fields : List (String × JsonVal))

/-- Does the character list start with the given pattern?  Used in place of
the JavaScript String.startsWith. -/
def charsStartWith : List Char → List Char → Bool
  | _, [] => true
  | [], _ :: _ => false
  | c :: cs, p :: ps => c == p && charsStartWith cs ps

/-- Whitespace recognised by JSON.parse between tokens. -/
def isJsonWs (c : Char) : Bool :=
  c == ' ' || c == '\t' || c == '\n' || c == '\r'

/-- Skip insignificant whitespace, as JSON.parse does between tokens. -/
def skipWs : List Char → List Char
  | [] => []
  | c :: cs => if isJsonWs c then skipWs cs else c :: cs

/-- Value of one hexadecimal digit, for string escapes of the form u XXXX. -/
def hexVal (c : Char) : Option Nat :=
  if '0' ≤ c ∧ c ≤ '9' then some (c.toNat - 48)
  else if 'a' ≤ c ∧ c ≤ 'f' then some (c.toNat - 87)
  else if 'A' ≤ c ∧ c ≤ 'F' then some (c.toNat - 55)
  else none

/-- Single-character JSON string escapes. -/
def escChar (c : Char) : Option Char :=
  if c = '"' then some '"'
  else if c = '\\' then some '\\'
  else if c = '/' then some '/'
  else if c = 'b' then some (Char.ofNat 8)
  else if c = 'f' then some (Char.ofNat 12)
  else if c = 'n' then some '\n'
  else if c = 'r' then some '\r'
  else if c = 't' then some '\t'
  else none

/-- Parse the body of a JSON string literal, after the opening quote.
Returns the decoded content and the remainder after the closing quote. -/
def parseStrBody : List Char → Option (List Char × List Char)
  | [] => none
  | c :: rest =>
    if c = '"' then some ([], rest)
    else if c = '\\' then
      match rest with
      | [] => none
      | e :: rest2 =>
        if e = 'u' then
          match rest2 with
          | a :: b :: c2 :: d :: rest3 =>
            match hexVal a, hexVal b, hexVal c2, hexVal d with
            | some ha, some hb, some hc, some hd =>
              (parseStrBody rest3).map fun pr =>
                (Char.ofNat (((ha * 16 + hb) * 16 + hc) * 16 + hd) :: pr.1, pr.2)
            | _, _, _, _ => none
          | _ => none
        else
          match escChar e with
          | some ch => (parseStrBody rest2).map fun pr => (ch :: pr.1, pr.2)
          | none => none
    else if c.toNat < 32 then none
    else (parseStrBody rest).map fun pr => (c :: pr.1, pr.2)

/-- Numeric value of a list of decimal digits. -/
def digitsVal (ds : List Char) : Nat :=
  ds.foldl (fun acc c => acc * 10 + (c.toNat - 48)) 0

/-- Parse a JSON number literal (sign, integer part, optional fraction and
exponent) into an exact rational, returning the remainder. -/
def parseNum (cs : List Char) : Option (ℚ × List Char) :=
  let (neg, cs1) := match cs with
    | '-' :: r => (true, r)
    | _ => (false, cs)
  let ds := cs1.takeWhile Char.isDigit
  let cs2 := cs1.dropWhile Char.isDigit
  if ds.isEmpty then none else
  let withFrac : Option (ℚ × List Char) :=
    match cs2 with
    | '.' :: r =>
      let fs := r.takeWhile Char.isDigit
      let r2 := r.dropWhile Char.isDigit
      if fs.isEmpty then none
      else some (((digitsVal (ds ++ fs) : ℚ)) / ((10 : ℚ) ^ fs.length), r2)
    | _ => some ((digitsVal ds : ℚ), cs2)
  match withFrac with
  | none => none
  | some (base, cs3) =>
    let withExp : Option (ℚ × List Char) :=
      match cs3 with
      | e :: r =>
        if e = 'e' ∨ e = 'E' then
          let (esign, r1) : Int × List Char := match r with
            | '-' :: r2 => (-1, r2)
            | '+' :: r2 => (1, r2)
            | _ => (1, r)
          let es := r1.takeWhile Char.isDigit
          let r2 := r1.dropWhile Char.isDigit
          if es.isEmpty then none
          else some (base * (10 : ℚ) ^ (esign * (digitsVal es : Int)), r2)
        else some (base, cs3)
      | [] => some (base, cs3)
    match withExp with
    | none => none
    | some (q, rest) => some (if neg then -q else q, rest)

/-- Recursive descent over a fuel bound: parse one JSON value, returning the
remainder of the input.  Object and array tails are parsed by re-entering
the same function on the remainder with the opening bracket restored, so the
recursion is structural in the fuel argument alone. -/
def parseV : Nat → List Char → Option (JsonVal × List Char)
  | 0, _ => none
  | fuel + 1, cs0 =>
    match skipWs cs0 with
    | [] => none
    | c :: rest =>
      if c = '"' then
        match parseStrBody rest with
        | some (content, r2) => some (.str (String.mk content), r2)
        | none => none
      else if c = '{' then
        match skipWs rest with
        | '}' :: r2 => some (.obj [], r2)
        | '"' :: r2 =>
          match parseStrBody r2 with
          | none => none
          | some (key, r3) =>
            match skipWs r3 with
            | ':' :: r4 =>
              match parseV fuel r4 with
              | none => none
              | some (v, r5) =>
                match skipWs r5 with
                | ',' :: r6 =>
                  match skipWs r6 with
                  | '"' :: _ =>
                    match parseV fuel ('{' :: r6) with
                    | some (.obj fs, r7) => some (.obj ((String.mk key, v) :: fs), r7)
                    | _ => none
                  | _ => none
                | '}' :: r6 => some (.obj [(String.mk key, v)], r6)
                | _ => none
            | _ => none
        | _ => none
      else if c = '[' then
        match skipWs rest with
        | ']' :: r2 => some (.arr [], r2)
        | r2 =>
          match parseV fuel r2 with
          | none => none
          | some (v, r3) =>
            match skipWs r3 with
            | ',' :: r4 =>
              (match skipWs r4 with
               | ']' :: _ => none
               | _ =>
                 match parseV fuel ('[' :: r4) with
                 | some (.arr vs, r5) => some (.arr (v :: vs), r5)
                 | _ => none)
            | ']' :: r4 => some (.arr [v], r4)
            | _ => none
      else if charsStartWith (c :: rest) ['t', 'r', 'u', 'e'] then
        some (.bool true, (c :: rest).drop 4)
      else if charsStartWith (c :: rest) ['f', 'a', 'l', 's', 'e'] then
        some (.bool false, (c :: rest).drop 5)
      else if charsStartWith (c :: rest) ['n', 'u', 'l', 'l'] then
        some (.null, (c :: rest).drop 4)
      else
        match parseNum (c :: rest) with
        | some (q, r2) => some (.num q, r2)
        | none => none

/-- Model of JSON.parse: some value on success, none where JSON.parse would
throw a SyntaxError.  The fuel is generous: one unit covers each value and
each container tail, both of which consume at least one input character. -/
def jsonParse (s : String) : Option JsonVal :=
  match parseV (2 * s.length + 8) s.data with
  | some (v, rest) => if (skipWs rest).isEmpty then some v else none
  | none => none

/-! ## JavaScript value helpers used by the dispatch code -/

/-- JavaScript truthiness of a parsed JSON value. -/
def jsTruthy : JsonVal → Bool
  | .null => false
  | .bool b => b
  | .num q => q != 0
  | .str s => s ≠ ""
  | .arr _ => true
  | .obj _ => true

/-- Truthiness of a possibly-undefined value (undefined is falsy). -/
def jsTruthyOpt : Option JsonVal → Bool
  | none => false
  | some v => jsTruthy v

/-- Property lookup on a parsed object: with duplicate keys, JSON.parse
keeps the last binding, so the last match wins. -/
def lookupField : List (String × JsonVal) → String → Option JsonVal
  | [], _ => none
  | (k2, v) :: rest, k =>
    match lookupField rest k with
    | some v2 => some v2
    | none => if k2 = k then some v else none

/-- JavaScript property access on a parsed value: accessing a property of
null throws a TypeError (modelled as the error case); objects look the
property up; on any other value the property is undefined. -/
def jsAccess : JsonVal → String → Except Unit (Option JsonVal)
  | .null, _ => .error ()
  | .obj fs, k => .ok (lookupField fs k)
  | _, _ => .ok none

/-- The nullish-coalescing operator: undefined and null fall back to the
default, any other value passes through. -/
def nullishD (v : Option JsonVal) (d : JsonVal) : JsonVal :=
  match v with
  | none => d
  | some .null => d
  | some x => x

mutual
/-- JavaScript string coercion of a parsed value, as applied by the Error
constructor and by RegExp.test.  Number formatting is approximated by the
rational printer; only string payloads reach this in practice. -/
def jsToString : JsonVal → String
  | .null => "null"
  | .bool true => "true"
  | .bool false => "false"
  | .num q => toString q
  | .str s => s
  | .arr xs => String.intercalate "," (jsToStringElems xs)
  | .obj _ => "[object Object]"
/-- Array elements under string coercion: null becomes the empty string. -/
def jsToStringElems : List JsonVal → List String
  | [] => []
  | .null :: rest => "" :: jsToStringElems rest
  | v :: rest => jsToString v :: jsToStringElems rest
end

/-- The JavaScript logical-or fallback `x || d` followed by string
coercion, for a possibly-undefined x: a truthy value is kept (coerced to a
string), anything falsy yields the default. -/
def jsOrString (v : Option JsonVal) (d : String) : String :=
  match v with
  | some x => if jsTruthy x then jsToString x else d
  | none => d

/-- Does the character list contain the pattern as a contiguous run? -/
def listHasSeq : List Char → List Char → Bool
  | [], pat => pat.isEmpty
  | l@(_ :: rest), pat => charsStartWith l pat || listHasSeq rest pat

/-- The JavaScript String.includes. -/
def strIncludes (s pat : String) : Bool :=
  listHasSeq s.data pat.data

/-- Case-insensitive containment, the effect of a case-insensitive regular
expression over an ASCII alternative. -/
def strContainsCI (s pat : String) : Bool :=
  listHasSeq (s.data.map Char.toUpper) (pat.data.map Char.toUpper)

/-- The test of the case-insensitive pattern 2FA-or-OTP against a detail
text (api.ts line 132). -/
def otpPattern (s : String) : Bool :=
  strContainsCI s "2FA" || strContainsCI s "OTP"

/-! ## The event-stream decoder (api.ts lines 104-143, framing level)

The read loop appends each decoded chunk to a carry-over buffer, splits on
newline, keeps the last (possibly incomplete) component as the new buffer,
and scans the complete lines.  The current event type is a local of the
loop body: it is reset to the empty string at every chunk iteration. -/

/-- The JavaScript String.split on a newline: every maximal newline-free
run, including empty ones; never the empty list. -/
def splitNl : List Char → List (List Char)
  | [] => [[]]
  | c :: cs =>
    if c = '\n' then [] :: splitNl cs
    else
      match splitNl cs with
      | [] => [[c]]
      | l :: ls => (c :: l) :: ls

/-- All components except the last: the complete lines left in `lines`
after `lines.pop()`. -/
def initParts : List (List Char) → List (List Char)
  | [] => []
  | [_] => []
  | a :: rest => a :: initParts rest

/-- The last component: the value of `lines.pop() ?? ''`, the new buffer. -/
def lastPart : List (List Char) → List Char
  | [] => []
  | [a] => a
  | _ :: rest => lastPart rest

/-- Whitespace removed by the JavaScript String.trim (ASCII part). -/
def isTrimWs (c : Char) : Bool :=
  c == ' ' || c == '\t' || c == '\n' || c == '\r' || c == '\x0b' || c == '\x0c'

/-- The JavaScript String.trim. -/
def trimChars (l : List Char) : List Char :=
  ((l.dropWhile isTrimWs).reverse.dropWhile isTrimWs).reverse

/-- Scan one batch of complete lines (api.ts lines 116-142, framing part):
an event line replaces the current event type; a data line yields a pair
when an event type is set; other lines are ignored.  Returns the yielded
pairs and the final event type of the batch. -/
def processLines : List (List Char) → List Char → List (List Char × List Char) × List Char
  | [], et => ([], et)
  | line :: rest, et =>
    if charsStartWith line ("event: ".data) then
      processLines rest (trimChars (line.drop 7))
    else if charsStartWith line ("data: ".data) ∧ et ≠ [] then
      let r := processLines rest et
      ((et, line.drop 6) :: r.1, r.2)
    else
      processLines rest et

/-- The chunk loop at the framing level (api.ts lines 109-143): the pairs
handed to the JSON dispatch, in order.  The final event type of each batch
is discarded, because the code re-declares `eventType` inside the loop
body; at stream end the buffered partial line is discarded. -/
def decodeChunks : List (List Char) → List Char → List (List Char × List Char)
  | [], _ => []
  | chunk :: rest, buffer =>
    let parts := splitNl (buffer ++ chunk)
    (processLines (initParts parts) []).1 ++ decodeChunks rest (lastPart parts)

/-- The decoder applied to a whole stream of (text of) chunks, starting
from the empty buffer. -/
def decodeStream (chunks : List String) : List (String × String) :=
  (decodeChunks (chunks.map String.data) []).map fun p => (String.mk p.1, String.mk p.2)

/-! ## The download protocol client (api.ts lines 66-149, dispatch level) -/

/-- The argument passed to the onProgress callback (api.ts lines 123-127):
each field is the raw payload field with its nullish default. -/
structure ProgressData where
  current : JsonVal
  total : JsonVal
  message : JsonVal

/-- A JavaScript exception escaping downloadInvoices: an Error constructed
by the code itself, carrying its message and the truthiness of its optional
requiresOtp property; a TypeError from accessing a property of null; or the
AbortError of a cancelled fetch. -/
inductive Thrown where
  | jsErr (message : String) (requiresOtp : Bool)
  | typeError
  | abortError
deriving DecidableEq

/-- The message property of a thrown exception.  The texts of the two
runtime errors are platform messages; the code only inspects them with
substring tests that neither matches. -/
def Thrown.message : Thrown → String
  | .jsErr m _ => m
  | .typeError => "Cannot read properties of null"
  | .abortError => "The operation was aborted"

/-- Truthiness of the requiresOtp property of a thrown exception (absent on
the runtime errors, hence falsy). -/
def Thrown.requiresOtpFlag : Thrown → Bool
  | .jsErr _ r => r
  | _ => false

/-- The test `err.name === 'AbortError'` (App.tsx line 93). -/
def Thrown.isAbort : Thrown → Bool
  | .abortError => true
  | _ => false

/-- Effect of dispatching one successfully parsed (event-type, payload)
pair (api.ts lines 122-136). -/
inductive StepRes where
  | emitProgress (p : ProgressData)
  | setResult (v : JsonVal)
  | skip
  | halt (e : Thrown)

/-- Is the step a thrown exception? -/
def StepRes.isHalt : StepRes → Bool
  | .halt _ => true
  | _ => false

/-- Dispatch of one pair whose payload JSON.parse succeeded (api.ts lines
122-136): progress events build the callback argument with nullish
defaults; done events record the payload; error events throw an Error whose
requiresOtp is the truthiness of the payload flag or else the result of the
2FA-or-OTP pattern test on the detail text; unknown event types do
nothing.  Accessing a field of a null payload throws a TypeError. -/
def stepPair (et : String) (data : JsonVal) : StepRes :=
  if et = "progress" then
    match jsAccess data "current", jsAccess data "total", jsAccess data "message" with
    | .ok c, .ok t, .ok m =>
      .emitProgress ⟨nullishD c (.num 0), nullishD t (.num (-1)), nullishD m (.str "")⟩
    | _, _, _ => .halt .typeError
  else if et = "done" then
    .setResult data
  else if et = "error" then
    match jsAccess data "detail", jsAccess data "requires_otp" with
    | .ok dv, .ok rv =>
      let detail := jsOrString dv "Erreur"
      .halt (.jsErr detail (jsTruthyOpt rv || otpPattern detail))
    | _, _ => .halt .typeError
  else
    .skip

/-- The JSON dispatch over the decoded pairs, in stream order (api.ts lines
109-148 after framing): a payload on which JSON.parse fails is skipped
(the SyntaxError is swallowed by the catch); a thrown exception ends the
operation at once; at the end of the pairs the recorded result is returned
when truthy, otherwise the no-result Error is thrown.  Returns the
onProgress calls made, in order, and the outcome. -/
def processPairs : List (String × String) → JsonVal → List ProgressData →
    List ProgressData × Except Thrown JsonVal
  | [], lastResult, prog =>
    (prog, if jsTruthy lastResult then .ok lastResult
           else .error (.jsErr "Téléchargement terminé sans résultat" false))
  | (et, payload) :: rest, lastResult, prog =>
    match jsonParse payload with
    | none => processPairs rest lastResult prog
    | some data =>
      match stepPair et data with
      | .emitProgress p => processPairs rest lastResult (prog ++ [p])
      | .setResult v => processPairs rest v prog
      | .skip => processPairs rest lastResult prog
      | .halt e => (prog, .error e)

/-- The initial HTTP response as downloadInvoices observes it: the ok flag,
status code and status text, the value the response.json() promise resolves
with (none when it rejects), and the chunks of the streamed body (none when
the body is null). -/
structure FetchResponse where
  ok : Bool
  status : Nat
  statusText : String
  jsonBody : Option JsonVal
  body : Option (List String)

/-- The downloadInvoices operation after the fetch resolved (api.ts lines
89-148): a failed response with no body is turned into an immediate Error —
with requiresOtp set on status 401 — whose message is the server detail
field or else the status text; an ok response with no body throws the
empty-response Error; otherwise the body chunks are decoded and
dispatched.  Returns the onProgress calls and the outcome. -/
def downloadInvoices (resp : FetchResponse) : List ProgressData × Except Thrown JsonVal :=
  if resp.ok = false ∧ resp.body = none then
    let errData := resp.jsonBody.getD (.obj [])
    match jsAccess errData "detail" with
    | .error _ => ([], .error .typeError)
    | .ok dv =>
      let detail := jsOrString dv resp.statusText
      if resp.status = 401 then ([], .error (.jsErr detail true))
      else ([], .error (.jsErr detail false))
  else
    match resp.body with
    | none => ([], .error (.jsErr "Réponse vide" false))
    | some chunks => processPairs (decodeStream chunks) .null []

/-! ## The orchestration state (App.tsx) -/

/-- The job request forwarded to the backend (api.ts lines 51-60). -/
structure DownloadParams where
  provider : Option String
  max_invoices : Int
  year : Option Int
  month : Option Int
  months : Option (List Int)
  date_start : Option String
  date_end : Option String
  force_redownload : Option Bool
deriving DecidableEq

/-- The challenge-submission response (api.ts lines 24-28). -/
structure OTPResponse where
  success : Bool
  message : String
  requires_otp : Bool
deriving DecidableEq

/-- The React state cells of the App component together with the
abortControllerRef cell.  Controllers are identified by the number they get
from the counter nextControllerId, so that abort requests can be traced. -/
structure AppState where
  status : String
  progress : Option ProgressData
  result : Option JsonVal
  loading : Bool
  error : Option String
  requiresOTP : Bool
  otpCode : String
  otpError : Option String
  pendingDownload : Option DownloadParams
  abortController : Option Nat
  nextControllerId : Nat

/-- An outward action of a handler, in program order: aborting a stored
controller, creating a controller, starting the download request, or
issuing the challenge-submission request. -/
inductive Effect where
  | abortPrevious (controller : Nat)
  | newController (controller : Nat)
  | startDownload (params : DownloadParams) (controller : Nat)
  | submitOtpRequest (code : String)
deriving DecidableEq

/-- The handleDownload handler (App.tsx lines 65-121).  Its interaction
with the network is summarised by `dl`, the onProgress calls and outcome of
the downloadInvoices call it awaits.  The handler first aborts the stored
controller if any, installs a fresh one, resets the per-run state cells,
and then settles according to the outcome; the finally block clears
loading and releases the controller it installed. -/
def handleDownload (s : AppState) (params : DownloadParams)
    (dl : List ProgressData × Except Thrown JsonVal) : AppState × List Effect :=
  let abortEffects : List Effect := match s.abortController with
    | some c => [.abortPrevious c]
    | none => []
  let cid := s.nextControllerId
  let s1 : AppState :=
    { s with abortController := some cid, nextControllerId := cid + 1,
             loading := true, error := none, result := none, progress := none,
             requiresOTP := false, otpError := none, status := "Connexion en cours…" }
  let effects := abortEffects ++ [.newController cid, .startDownload params cid]
  let s2 : AppState :=
    match dl.2 with
    | .ok response =>
      { s1 with result := some response, status := "Téléchargement terminé",
                progress := none, requiresOTP := false }
    | .error err =>
      let sc := { s1 with progress := none }
      if err.isAbort then
        { sc with status := "Téléchargement annulé", error := none }
      else if err.requiresOtpFlag then
        { sc with requiresOTP := true, pendingDownload := some params,
                  error := some (if err.message ≠ "" then err.message else
                    "Code 2FA requis. Veuillez saisir le code reçu par SMS, email ou application."),
                  status := "Code 2FA requis" }
      else if strIncludes err.message "Failed to fetch" then
        { sc with error := some "Impossible de joindre le backend. Vérifiez qu\x27il est démarré (http://localhost:8001).",
                  status := "Erreur réseau" }
      else if strIncludes err.message "timeout" then
        { sc with error := some (if err.message ≠ "" then err.message else
                    "Téléchargement interrompu (timeout). Réduisez la période ou le nombre de factures."),
                  status := "Timeout" }
      else
        { sc with error := some err.message, status := "Erreur lors du téléchargement" }
  let s3 := { s2 with loading := false }
  let s4 := if s3.abortController = some cid then { s3 with abortController := none } else s3
  (s4, effects)

/-- The handleSubmitOTP handler (App.tsx lines 127-159).  `otpResult` is
the outcome of the awaited submitOTP call (a thrown error is summarised by
its display message); `dl` is the outcome of the resumed downloadInvoices
call, consumed only when the handler re-invokes handleDownload.  A code
shorter than four characters fails locally before any network effect. -/
def handleSubmitOTP (s : AppState) (otpResult : Except String OTPResponse)
    (dl : List ProgressData × Except Thrown JsonVal) : AppState × List Effect :=
  if s.otpCode = "" ∨ s.otpCode.length < 4 then
    ({ s with otpError := some "Le code doit contenir au moins 4 caractères" }, [])
  else
    let s1 := { s with otpError := none, loading := true }
    let effects : List Effect := [.submitOtpRequest s1.otpCode]
    let r : AppState × List Effect :=
      match otpResult with
      | .ok response =>
        if response.success ∧ response.requires_otp = false then
          let sa := { s1 with requiresOTP := false, status := "Code OTP accepté", otpCode := "" }
          match sa.pendingDownload with
          | some p =>
            let rb := handleDownload sa p dl
            ({ rb.1 with pendingDownload := none }, effects ++ rb.2)
          | none => (sa, effects)
        else
          ({ s1 with otpError := some (if response.message ≠ "" then response.message else
                       "Code OTP incorrect ou expiré"),
                     requiresOTP := response.requires_otp }, effects)
      | .error msg => ({ s1 with otpError := some msg }, effects)
    ({ r.1 with loading := false }, r.2)

/-! ## The status display (StatusDisplay.tsx lines 15-19) -/

/-- The progress shape consumed by StatusDisplay, with JavaScript numbers
modelled as rationals. -/
structure ProgressInfo where
  current : ℚ
  total : ℚ
  message : String

/-- The rendering decision of StatusDisplay: whether the bar is shown
(`progress && progress.total > 0`) and the width percentage
(`Math.min(100, Math.round((current / total) * 100))`, else 0). -/
def statusDisplay : Option ProgressInfo → Bool × ℤ
  | none => (false, 0)
  | some p =>
    if p.total > 0 then (true, min 100 (round (p.current / p.total * 100)))
    else (false, 0)

/-! ## Claim theorems -/

/-- C1: the claim states that the decoder yields the same (event-type,
payload) pairs for every partition of the bytes into chunks, the current
event type persisting across chunk boundaries.  The code re-declares the
current event type inside the chunk loop, so a split falling between an
event line and its data line loses the pair: delivered as one chunk, the
well-formed pair below is yielded; delivered as two chunks split between
the two lines, nothing is yielded. -/
theorem c1_event_type_lost_across_chunks :
    decodeStream ["event: progress\n", "data: \x7b\x22current\x22: 1\x7d\n"] = [] ∧
    decodeStream ["event: progress\ndata: \x7b\x22current\x22: 1\x7d\n"]
      = [("progress", "\x7b\x22current\x22: 1\x7d")] :=
  ⟨rfl, rfl⟩

/-- C6: a failed initial response with no streamable body fails the
operation immediately — with the OtpRequired flag exactly on status 401 —
carrying the server detail message when one is provided (first part) and
the status text when none is (second part); no stream is consumed (the
progress list is empty). -/
theorem c6_initial_failure_classification :
    (∀ (resp : FetchResponse) (d : String),
      resp.ok = false → resp.body = none →
      resp.jsonBody = some (.obj [("detail", .str d)]) → d ≠ "" →
      downloadInvoices resp = ([], .error (.jsErr d (decide (resp.status = 401))))) ∧
    (∀ resp : FetchResponse,
      resp.ok = false → resp.body = none → resp.jsonBody = some (.obj []) →
      downloadInvoices resp
        = ([], .error (.jsErr resp.statusText (decide (resp.status = 401))))) := by
  constructor
  · intro resp d hok hbody hjson hd
    by_cases h401 : resp.status = 401 <;>
      simp [downloadInvoices, hok, hbody, hjson, jsAccess, lookupField, jsOrString,
        jsTruthy, jsToString, hd, h401]
  · intro resp hok hbody hjson
    by_cases h401 : resp.status = 401 <;>
      simp [downloadInvoices, hok, hbody, hjson, jsAccess, lookupField, jsOrString, h401]

/-- C6 witness: a 401 response with no body and a detail field fails as
OtpRequired with that detail, via the theorem at a concrete response. -/
theorem c6_initial_failure_classification_witness :
    downloadInvoices ⟨false, 401, "Unauthorized", some (.obj [("detail", .str "code requis")]), none⟩
      = ([], .error (.jsErr "code requis" true)) := by
  have h := c6_initial_failure_classification.1
    ⟨false, 401, "Unauthorized", some (.obj [("detail", .str "code requis")]), none⟩
    "code requis" rfl rfl rfl (by decide)
  simpa using h

/-- C10: the status display renders its bar exactly when a progress value
is present with a strictly positive total (so the division is guarded),
and the displayed percentage then equals the rounded ratio capped at one
hundred, hence never exceeds one hundred even when current exceeds total. -/
theorem c10_progress_bar_percent :
    (∀ progress : Option ProgressInfo,
      (statusDisplay progress).1 = true ↔ ∃ p, progress = some p ∧ p.total > 0) ∧
    (∀ p : ProgressInfo, p.total > 0 → 0 ≤ p.current →
      (statusDisplay (some p)).2 = min 100 (round (100 * p.current / p.total)) ∧
      (statusDisplay (some p)).2 ≤ 100) := by
  constructor
  · intro progress
    match progress with
    | none => simp [statusDisplay]
    | some p =>
      by_cases h : p.total > 0 <;> simp [statusDisplay, h]
  · intro p ht _hc
    simp only [statusDisplay, if_pos ht]
    constructor
    · rw [div_mul_eq_mul_div, mul_comm]
    · exact min_le_left _ _

/-- C10 witness: with current 150 of total 100 the bar shows and reads
exactly one hundred, via the theorem at a concrete progress value. -/
theorem c10_progress_bar_percent_witness :
    (0 : ℚ) < 100 ∧ (0 : ℚ) ≤ 150 ∧
    (statusDisplay (some ⟨150, 100, ""⟩)).2 = min 100 (round ((100 : ℚ) * 150 / 100)) ∧
    (statusDisplay (some ⟨150, 100, ""⟩)).2 ≤ 100 :=
  ⟨by norm_num, by norm_num,
   c10_progress_bar_percent.2 ⟨150, 100, ""⟩ (by norm_num) (by norm_num)⟩

/-- C4: every invocation of handleDownload first aborts the stored
cancellation handle, when there is one, before the fresh controller is
created and the download request started; with no stored handle the run
begins directly with the fresh controller. -/
theorem c4_abort_previous_before_new :
    ∀ (s : AppState) (params : DownloadParams)
      (dl : List ProgressData × Except Thrown JsonVal),
      (∀ c, s.abortController = some c →
        (handleDownload s params dl).2
          = [.abortPrevious c, .newController s.nextControllerId,
             .startDownload params s.nextControllerId]) ∧
      (s.abortController = none →
        (handleDownload s params dl).2
          = [.newController s.nextControllerId, .startDownload params s.nextControllerId]) := by
  intro s params dl
  constructor
  · intro c hc
    simp [handleDownload, hc]
  · intro hc
    simp [handleDownload, hc]

/-- C4 witness: with controller seven stored, a new invocation aborts it
first, via the theorem at a concrete state. -/
theorem c4_abort_previous_before_new_witness :
    (handleDownload ⟨"", none, none, false, none, false, "", none, none, some 7, 8⟩
        ⟨none, 50, some 2024, none, none, none, none, none⟩ ([], .error .abortError)).2
      = [.abortPrevious 7, .newController 8,
         .startDownload ⟨none, 50, some 2024, none, none, none, none, none⟩ 8] :=
  (c4_abort_previous_before_new
    ⟨"", none, none, false, none, false, "", none, none, some 7, 8⟩
    ⟨none, 50, some 2024, none, none, none, none, none⟩ ([], .error .abortError)).1 7 rfl

/-- C7: a challenge code shorter than four characters fails locally with
the validation message and produces no outward effect at all, while a code
of length at least four issues the challenge-submission request first. -/
theorem c7_code_length_validation :
    ∀ (s : AppState) (otpResult : Except String OTPResponse)
      (dl : List ProgressData × Except Thrown JsonVal),
      (s.otpCode.length < 4 →
        handleSubmitOTP s otpResult dl
          = ({ s with otpError := some "Le code doit contenir au moins 4 caractères" }, [])) ∧
      (4 ≤ s.otpCode.length →
        ((handleSubmitOTP s otpResult dl).2.head? = some (.submitOtpRequest s.otpCode))) := by
  intro s otpResult dl
  constructor
  · intro hlen
    simp [handleSubmitOTP, Or.inr hlen]
  · intro hlen
    have hne : ¬(s.otpCode = "" ∨ s.otpCode.length < 4) := by
      rintro (h | h)
      · rw [h] at hlen
        simp at hlen
      · omega
    simp only [handleSubmitOTP, if_neg hne]
    match otpResult with
    | .error msg => rfl
    | .ok response =>
      by_cases hok : response.success ∧ response.requires_otp = false
      · simp only [if_pos hok]
        match hp : s.pendingDownload with
        | some p => rfl
        | none => rfl
      · simp only [if_neg hok]
        rfl

/-- C7 witness: submitting the three-character code abc fails with the
validation message and an empty effect list, via the theorem at a concrete
state. -/
theorem c7_code_length_validation_witness :
    handleSubmitOTP ⟨"st", none, none, false, none, true, "abc", none, none, none, 0⟩
        (.ok ⟨true, "", false⟩) ([], .error .abortError)
      = ({ (⟨"st", none, none, false, none, true, "abc", none, none, none, 0⟩ : AppState) with
            otpError := some "Le code doit contenir au moins 4 caractères" }, []) :=
  (c7_code_length_validation ⟨"st", none, none, false, none, true, "abc", none, none, none, 0⟩
    (.ok ⟨true, "", false⟩) ([], .error .abortError)).1 (by decide)

/-- Effects of a handleDownload invocation do not depend on the outcome of
the awaited call: the stored controller is aborted when present, then the
fresh controller is created and the request started. -/
theorem handleDownload_effects (s : AppState) (params : DownloadParams)
    (dl : List ProgressData × Except Thrown JsonVal) :
    (handleDownload s params dl).2 =
      (match s.abortController with
       | some c => [Effect.abortPrevious c]
       | none => []) ++
      [.newController s.nextControllerId, .startDownload params s.nextControllerId] := by
  simp [handleDownload]

/-- C3: when a download fails with the OtpRequired classification, the
original request parameters are stored as the pending resumption request,
the challenge prompt is raised, and a subsequent challenge submission whose
response is success with no further challenge automatically starts a
download carrying exactly those stored parameters. -/
theorem c3_otp_failure_stores_params_and_resumes :
    ∀ (s : AppState) (params : DownloadParams)
      (dl dl2 : List ProgressData × Except Thrown JsonVal) (em code otpMsg : String),
      dl.2 = .error (.jsErr em true) → 4 ≤ code.length →
      (handleDownload s params dl).1.pendingDownload = some params ∧
      (handleDownload s params dl).1.requiresOTP = true ∧
      Effect.startDownload params (handleDownload s params dl).1.nextControllerId ∈
        (handleSubmitOTP { (handleDownload s params dl).1 with otpCode := code }
          (.ok ⟨true, otpMsg, false⟩) dl2).2 := by
  intro s params dl dl2 em code otpMsg hdl hlen
  have hcode_ne : code ≠ "" := by
    intro h
    rw [h] at hlen
    simp at hlen
  have hne : ¬(code = "" ∨ code.length < 4) := by
    rintro (h | h)
    · exact hcode_ne h
    · omega
  have hpend : (handleDownload s params dl).1.pendingDownload = some params := by
    simp [handleDownload, hdl, Thrown.isAbort, Thrown.requiresOtpFlag]
  have hreq : (handleDownload s params dl).1.requiresOTP = true := by
    simp [handleDownload, hdl, Thrown.isAbort, Thrown.requiresOtpFlag]
  have habort : (handleDownload s params dl).1.abortController = none := by
    simp [handleDownload, hdl, Thrown.isAbort, Thrown.requiresOtpFlag]
  refine ⟨hpend, hreq, ?_⟩
  simp only [handleSubmitOTP, if_neg hne, handleDownload_effects, hpend, habort]
  simp

/-- C3 witness: a failed download with the OtpRequired flag followed by an
accepted six-character code restarts the download with the original
parameters, via the theorem at concrete values. -/
theorem c3_otp_failure_stores_params_and_resumes_witness :
    (handleDownload ⟨"", none, none, false, none, false, "", none, none, none, 0⟩
        ⟨none, 50, some 2024, none, none, none, none, none⟩
        ([], .error (.jsErr "2FA requise" true))).1.pendingDownload
      = some ⟨none, 50, some 2024, none, none, none, none, none⟩ ∧
    (handleDownload ⟨"", none, none, false, none, false, "", none, none, none, 0⟩
        ⟨none, 50, some 2024, none, none, none, none, none⟩
        ([], .error (.jsErr "2FA requise" true))).1.requiresOTP = true ∧
    Effect.startDownload ⟨none, 50, some 2024, none, none, none, none, none⟩
        (handleDownload ⟨"", none, none, false, none, false, "", none, none, none, 0⟩
          ⟨none, 50, some 2024, none, none, none, none, none⟩
          ([], .error (.jsErr "2FA requise" true))).1.nextControllerId ∈
      (handleSubmitOTP
        { (handleDownload ⟨"", none, none, false, none, false, "", none, none, none, 0⟩
            ⟨none, 50, some 2024, none, none, none, none, none⟩
            ([], .error (.jsErr "2FA requise" true))).1 with otpCode := "123456" }
        (.ok ⟨true, "ok", false⟩) ([], .error .abortError)).2 :=
  c3_otp_failure_stores_params_and_resumes
    ⟨"", none, none, false, none, false, "", none, none, none, 0⟩
    ⟨none, 50, some 2024, none, none, none, none, none⟩
    ([], .error (.jsErr "2FA requise" true)) ([], .error .abortError)
    "2FA requise" "123456" "ok" rfl (by decide)

/-- Unfolding of the dispatch loop at one pair. -/
theorem processPairs_cons (et pl : String) (rest : List (String × String))
    (lastR : JsonVal) (prog : List ProgressData) :
    processPairs ((et, pl) :: rest) lastR prog =
      match jsonParse pl with
      | none => processPairs rest lastR prog
      | some data =>
        match stepPair et data with
        | .emitProgress p => processPairs rest lastR (prog ++ [p])
        | .setResult v => processPairs rest v prog
        | .skip => processPairs rest lastR prog
        | .halt e => (prog, .error e) := rfl

/-- Only a done event records a result. -/
theorem stepPair_eq_setResult {et : String} {d v : JsonVal}
    (h : stepPair et d = .setResult v) : et = "done" ∧ v = d := by
  by_cases h1 : et = "progress"
  · simp only [stepPair, if_pos h1] at h
    split at h <;> simp_all
  · by_cases h2 : et = "done"
    · simp only [stepPair, if_neg h1, if_pos h2] at h
      injection h with hv
      exact ⟨h2, hv.symm⟩
    · by_cases h3 : et = "error"
      · simp only [stepPair, if_neg h1, if_neg h2, if_pos h3] at h
        split at h <;> simp_all
      · simp only [stepPair, if_neg h1, if_neg h2, if_neg h3] at h
        simp at h

/-- C8: a data line whose payload is not valid JSON is skipped silently —
the dispatch of the whole stream is unchanged by removing that pair, so no
error surfaces for it and every remaining event is still delivered. -/
theorem c8_malformed_payload_skipped :
    ∀ (pre suf : List (String × String)) (et pl : String)
      (lastR : JsonVal) (prog : List ProgressData),
      jsonParse pl = none →
      processPairs (pre ++ (et, pl) :: suf) lastR prog
        = processPairs (pre ++ suf) lastR prog := by
  intro pre suf et pl lastR prog hbad
  induction pre generalizing lastR prog with
  | nil => simp only [List.nil_append, processPairs_cons, hbad]
  | cons a pre ih =>
    obtain ⟨et2, pl2⟩ := a
    cases hj : jsonParse pl2 with
    | none =>
      simp only [List.cons_append, processPairs_cons, hj]
      exact ih lastR prog
    | some d =>
      cases hs : stepPair et2 d with
      | emitProgress p =>
        simp only [List.cons_append, processPairs_cons, hj, hs]
        exact ih lastR (prog ++ [p])
      | setResult v =>
        simp only [List.cons_append, processPairs_cons, hj, hs]
        exact ih v prog
      | skip =>
        simp only [List.cons_append, processPairs_cons, hj, hs]
        exact ih lastR prog
      | halt e =>
        simp only [List.cons_append, processPairs_cons, hj, hs]

/-- C8 witness: a malformed progress payload before a done event leaves the
outcome exactly as if the malformed pair were absent, via the theorem at a
concrete stream. -/
theorem c8_malformed_payload_skipped_witness :
    processPairs [("progress", "pas du json"), ("done", "\x7b\x22success\x22: true\x7d")]
        .null []
      = processPairs [("done", "\x7b\x22success\x22: true\x7d")] .null [] :=
  c8_malformed_payload_skipped [] [("done", "\x7b\x22success\x22: true\x7d")]
    "progress" "pas du json" .null [] rfl

/-- C2 (amended): an error event reached after only non-throwing pairs
fails the operation with the detail text (or the fallback text), and it is
classified OtpRequired exactly when the requires_otp field is truthy or the
detail text matches the case-insensitive 2FA-or-OTP pattern — the pattern
applies whenever the flag is falsy, including an explicit false. -/
theorem c2_error_event_classification :
    ∀ (pre suf : List (String × String)) (pl : String) (data : JsonVal)
      (dv rv : Option JsonVal),
      jsonParse pl = some data →
      jsAccess data "detail" = .ok dv →
      jsAccess data "requires_otp" = .ok rv →
      ∀ (lastR : JsonVal) (prog : List ProgressData),
        (∀ p ∈ pre, ((jsonParse p.2).all fun d => !(stepPair p.1 d).isHalt) = true) →
        (processPairs (pre ++ ("error", pl) :: suf) lastR prog).2
          = .error (.jsErr (jsOrString dv "Erreur")
              (jsTruthyOpt rv || otpPattern (jsOrString dv "Erreur"))) := by
  intro pre suf pl data dv rv hparse hdet hreq
  induction pre with
  | nil =>
    intro lastR prog _
    simp only [List.nil_append, processPairs_cons, hparse]
    have hs : stepPair "error" data
        = .halt (.jsErr (jsOrString dv "Erreur")
            (jsTruthyOpt rv || otpPattern (jsOrString dv "Erreur"))) := by
      simp [stepPair, hdet, hreq]
    rw [hs]
  | cons a pre ih =>
    intro lastR prog hpre
    obtain ⟨et2, pl2⟩ := a
    have ha := hpre (et2, pl2) (List.mem_cons_self _ _)
    have hpre2 : ∀ p ∈ pre, ((jsonParse p.2).all fun d => !(stepPair p.1 d).isHalt) = true :=
      fun p hp => hpre p (List.mem_cons_of_mem _ hp)
    cases hj : jsonParse pl2 with
    | none =>
      simp only [List.cons_append, processPairs_cons, hj]
      exact ih lastR prog hpre2
    | some d =>
      rw [hj] at ha
      simp only [Option.all, Bool.not_eq_true'] at ha
      cases hs : stepPair et2 d with
      | emitProgress p =>
        simp only [List.cons_append, processPairs_cons, hj, hs]
        exact ih lastR (prog ++ [p]) hpre2
      | setResult v =>
        simp only [List.cons_append, processPairs_cons, hj, hs]
        exact ih v prog hpre2
      | skip =>
        simp only [List.cons_append, processPairs_cons, hj, hs]
        exact ih lastR prog hpre2
      | halt e =>
        rw [hs] at ha
        simp [StepRes.isHalt] at ha

/-- C2 counterexample: the claim states that an error event carrying an
explicit requires_otp false is not classified OtpRequired even when its
detail mentions 2FA.  On this concrete event the code classifies the
failure with requiresOtp true: the logical-or lets the text pattern
override the explicit false flag. -/
theorem c2_error_event_classification_counterexample :
    (processPairs
        [("error", "\x7b\x22requires_otp\x22: false, \x22detail\x22: \x22code 2FA attendu\x22\x7d")]
        .null []).2
      = .error (.jsErr "code 2FA attendu" true) := rfl

/-- C2 witness: a progress pair followed by an error event with a truthy
flag is classified OtpRequired, via the amended theorem at concrete
values. -/
theorem c2_error_event_classification_witness :
    (processPairs
        [("progress", "\x7b\x22current\x22: 1\x7d"),
         ("error", "\x7b\x22requires_otp\x22: true, \x22detail\x22: \x22connexion requise\x22\x7d")]
        .null []).2
      = .error (.jsErr "connexion requise" true) := by
  have h := c2_error_event_classification
    [("progress", "\x7b\x22current\x22: 1\x7d")] []
    "\x7b\x22requires_otp\x22: true, \x22detail\x22: \x22connexion requise\x22\x7d"
    (.obj [("requires_otp", .bool true), ("detail", .str "connexion requise")])
    (some (.str "connexion requise")) (some (.bool true))
    rfl rfl rfl .null [] (by decide)
  exact h

/-- The dispatch of a stream with no done pair and no throwing pair ends in
the no-result error. -/
theorem processPairs_no_done (pairs : List (String × String)) :
    ∀ prog : List ProgressData,
      (∀ p ∈ pairs, p.1 ≠ "done") →
      (∀ p ∈ pairs, ((jsonParse p.2).all fun d => !(stepPair p.1 d).isHalt) = true) →
      (processPairs pairs .null prog).2
        = .error (.jsErr "Téléchargement terminé sans résultat" false) := by
  induction pairs with
  | nil => intro prog _ _; rfl
  | cons a pairs ih =>
    intro prog hdone hsafe
    obtain ⟨et, pl⟩ := a
    have hdone1 : et ≠ "done" := hdone (et, pl) (List.mem_cons_self _ _)
    have hdone2 : ∀ p ∈ pairs, p.1 ≠ "done" := fun p hp => hdone p (List.mem_cons_of_mem _ hp)
    have hsafe1 := hsafe (et, pl) (List.mem_cons_self _ _)
    have hsafe2 : ∀ p ∈ pairs, ((jsonParse p.2).all fun d => !(stepPair p.1 d).isHalt) = true :=
      fun p hp => hsafe p (List.mem_cons_of_mem _ hp)
    cases hj : jsonParse pl with
    | none =>
      simp only [processPairs_cons, hj]
      exact ih prog hdone2 hsafe2
    | some d =>
      rw [hj] at hsafe1
      simp only [Option.all, Bool.not_eq_true'] at hsafe1
      cases hs : stepPair et d with
      | emitProgress p =>
        simp only [processPairs_cons, hj, hs]
        exact ih (prog ++ [p]) hdone2 hsafe2
      | setResult v =>
        exact absurd (stepPair_eq_setResult hs).1 hdone1
      | skip =>
        simp only [processPairs_cons, hj, hs]
        exact ih prog hdone2 hsafe2
      | halt e =>
        rw [hs] at hsafe1
        simp [StepRes.isHalt] at hsafe1

/-- A dispatch that returns a value got it from the initial recorded result
or from a done pair of the stream whose payload parsed to that value. -/
theorem processPairs_ok_from_done (pairs : List (String × String)) :
    ∀ (lastR : JsonVal) (prog : List ProgressData) (r : JsonVal),
      (processPairs pairs lastR prog).2 = .ok r →
      (jsTruthy lastR = true ∧ r = lastR) ∨
        ∃ p ∈ pairs, p.1 = "done" ∧ jsonParse p.2 = some r := by
  induction pairs with
  | nil =>
    intro lastR prog r h
    cases ht : jsTruthy lastR with
    | false => simp [processPairs, ht] at h
    | true =>
      left
      refine ⟨rfl, ?_⟩
      simp only [processPairs, ht, if_true] at h
      injection h with h2
      exact h2.symm
  | cons a pairs ih =>
    intro lastR prog r h
    obtain ⟨et, pl⟩ := a
    cases hj : jsonParse pl with
    | none =>
      rw [processPairs_cons] at h
      simp only [hj] at h
      rcases ih lastR prog r h with hl | ⟨p, hp, h1, h2⟩
      · exact Or.inl hl
      · exact Or.inr ⟨p, List.mem_cons_of_mem _ hp, h1, h2⟩
    | some d =>
      cases hs : stepPair et d with
      | emitProgress p2 =>
        rw [processPairs_cons] at h
        simp only [hj, hs] at h
        rcases ih lastR (prog ++ [p2]) r h with hl | ⟨p, hp, h1, h2⟩
        · exact Or.inl hl
        · exact Or.inr ⟨p, List.mem_cons_of_mem _ hp, h1, h2⟩
      | skip =>
        rw [processPairs_cons] at h
        simp only [hj, hs] at h
        rcases ih lastR prog r h with hl | ⟨p, hp, h1, h2⟩
        · exact Or.inl hl
        · exact Or.inr ⟨p, List.mem_cons_of_mem _ hp, h1, h2⟩
      | halt e =>
        rw [processPairs_cons] at h
        simp only [hj, hs] at h
        simp at h
      | setResult v =>
        rw [processPairs_cons] at h
        simp only [hj, hs] at h
        obtain ⟨hdone, hvd⟩ := stepPair_eq_setResult hs
        rcases ih v prog r h with ⟨_, hrv⟩ | ⟨p, hp, h1, h2⟩
        · refine Or.inr ⟨(et, pl), List.mem_cons_self _ _, hdone, ?_⟩
          rw [hj, hvd.symm, hrv]
        · exact Or.inr ⟨p, List.mem_cons_of_mem _ hp, h1, h2⟩

/-- The stream branch of the operation. -/
theorem downloadInvoices_stream (resp : FetchResponse) (chunks : List String)
    (h : resp.body = some chunks) :
    downloadInvoices resp = processPairs (decodeStream chunks) .null [] := by
  simp [downloadInvoices, h]

/-- C5: a stream whose pairs contain no done event (and no throwing event)
ends in the no-result failure rather than returning, and conversely a
returned value is the recorded payload of a done pair of the stream. -/
theorem c5_no_done_means_no_result :
    ∀ (resp : FetchResponse) (chunks : List String),
      resp.body = some chunks →
      ((∀ p ∈ decodeStream chunks, p.1 ≠ "done") →
       (∀ p ∈ decodeStream chunks, ((jsonParse p.2).all fun d => !(stepPair p.1 d).isHalt) = true) →
       (downloadInvoices resp).2
         = .error (.jsErr "Téléchargement terminé sans résultat" false)) ∧
      (∀ r, (downloadInvoices resp).2 = .ok r →
        ∃ p ∈ decodeStream chunks, p.1 = "done" ∧ jsonParse p.2 = some r) := by
  intro resp chunks hbody
  rw [downloadInvoices_stream resp chunks hbody]
  constructor
  · intro h1 h2
    exact processPairs_no_done (decodeStream chunks) [] h1 h2
  · intro r h
    rcases processPairs_ok_from_done (decodeStream chunks) .null [] r h with ⟨ht, _⟩ | hex
    · simp [jsTruthy] at ht
    · exact hex

/-- C5 witness: a stream of progress events only fails with the no-result
error, via the theorem at a concrete response. -/
theorem c5_no_done_means_no_result_witness :
    (downloadInvoices ⟨true, 200, "OK", none,
        some ["event: progress\ndata: \x7b\x22current\x22: 1\x7d\n",
              "event: progress\ndata: \x7b\x22current\x22: 2\x7d\n"]⟩).2
      = .error (.jsErr "Téléchargement terminé sans résultat" false) :=
  (c5_no_done_means_no_result ⟨true, 200, "OK", none,
      some ["event: progress\ndata: \x7b\x22current\x22: 1\x7d\n",
            "event: progress\ndata: \x7b\x22current\x22: 2\x7d\n"]⟩
    ["event: progress\ndata: \x7b\x22current\x22: 1\x7d\n",
     "event: progress\ndata: \x7b\x22current\x22: 2\x7d\n"] rfl).1 (by decide) (by decide)

/-- The split of a line list is never empty. -/
theorem splitNl_ne_nil : ∀ cs : List Char, splitNl cs ≠ [] := by
  intro cs
  induction cs with
  | nil => simp [splitNl]
  | cons c cs ih =>
    simp only [splitNl]
    split
    · simp
    · cases h : splitNl cs <;> simp

/-- Splitting after a newline starts a fresh component. -/
theorem splitNl_cons_nl (cs : List Char) : splitNl ('\n' :: cs) = [] :: splitNl cs := rfl

/-- Splitting after an ordinary character extends the first component. -/
theorem splitNl_cons_of_ne (c : Char) (cs : List Char) (l : List Char) (ls : List (List Char))
    (hc : c ≠ '\n') (h : splitNl cs = l :: ls) : splitNl (c :: cs) = (c :: l) :: ls := by
  simp only [splitNl, if_neg hc, h]

/-- A newline-free text splits into itself alone. -/
theorem splitNl_no_nl : ∀ cs : List Char, (∀ c ∈ cs, c ≠ '\n') → splitNl cs = [cs] := by
  intro cs h
  induction cs with
  | nil => rfl
  | cons c cs ih =>
    have hc : c ≠ '\n' := h c (List.mem_cons_self _ _)
    have ih2 := ih fun x hx => h x (List.mem_cons_of_mem _ hx)
    exact splitNl_cons_of_ne c cs cs [] hc ih2

/-- The last component of a longer list ignores the head. -/
theorem lastPart_cons_of_ne_nil (a : List Char) {L : List (List Char)} (h : L ≠ []) :
    lastPart (a :: L) = lastPart L := by
  cases L with
  | nil => exact absurd rfl h
  | cons b B => rfl

/-- The initial components of a longer list keep the head. -/
theorem initParts_cons_of_ne_nil (a : List Char) {L : List (List Char)} (h : L ≠ []) :
    initParts (a :: L) = a :: initParts L := by
  cases L with
  | nil => exact absurd rfl h
  | cons b B => rfl

/-- Dropping the appended last component recovers the initial components. -/
theorem initParts_append_single :
    ∀ (A : List (List Char)) (z : List Char), initParts (A ++ [z]) = A := by
  intro A z
  induction A with
  | nil => rfl
  | cons a A ih =>
    rw [List.cons_append, initParts_cons_of_ne_nil a (by simp), ih]

/-- Appending newline-free text extends only the last component of the
split: the complete lines are unchanged and the text joins the buffer. -/
theorem splitNl_append_no_nl (s t : List Char) (ht : ∀ c ∈ t, c ≠ '\n') :
    splitNl (s ++ t) = initParts (splitNl s) ++ [lastPart (splitNl s) ++ t] := by
  induction s with
  | nil =>
    simp only [List.nil_append, splitNl_no_nl t ht]
    rfl
  | cons c s ih =>
    by_cases hc : c = '\n'
    · subst hc
      rw [List.cons_append, splitNl_cons_nl, splitNl_cons_nl, ih,
        initParts_cons_of_ne_nil _ (splitNl_ne_nil s),
        lastPart_cons_of_ne_nil _ (splitNl_ne_nil s), List.cons_append]
    · cases hsp : splitNl s with
      | nil => exact absurd hsp (splitNl_ne_nil s)
      | cons l ls =>
        cases hls : ls with
        | nil =>
          have hst : splitNl (s ++ t) = [l ++ t] := by
            rw [ih, hsp, hls]
            rfl
          rw [List.cons_append, splitNl_cons_of_ne c (s ++ t) (l ++ t) [] hc hst,
            splitNl_cons_of_ne c s l [] hc (hls ▸ hsp)]
          simp [initParts, lastPart]
        | cons m ms =>
          subst hls
          have hst : splitNl (s ++ t) = l :: (initParts (m :: ms) ++ [lastPart (m :: ms) ++ t]) := by
            rw [ih, hsp, @initParts_cons_of_ne_nil l (m :: ms) (by simp),
              @lastPart_cons_of_ne_nil l (m :: ms) (by simp), List.cons_append]
          rw [List.cons_append,
            splitNl_cons_of_ne c (s ++ t) l
              (initParts (m :: ms) ++ [lastPart (m :: ms) ++ t]) hc hst,
            splitNl_cons_of_ne c s l (m :: ms) hc hsp,
            @initParts_cons_of_ne_nil (c :: l) (m :: ms) (by simp),
            @lastPart_cons_of_ne_nil (c :: l) (m :: ms) (by simp), List.cons_append]

/-- The carried buffer — the last component of a split — never contains a
newline. -/
theorem lastPart_splitNl_no_nl : ∀ cs : List Char, ∀ c ∈ lastPart (splitNl cs), c ≠ '\n' := by
  intro cs
  induction cs with
  | nil => simp [splitNl, lastPart]
  | cons c cs ih =>
    by_cases hc : c = '\n'
    · subst hc
      rw [splitNl_cons_nl, lastPart_cons_of_ne_nil _ (splitNl_ne_nil cs)]
      exact ih
    · cases hsp : splitNl cs with
      | nil => exact absurd hsp (splitNl_ne_nil cs)
      | cons l ls =>
        cases hls : ls with
        | nil =>
          rw [splitNl_cons_of_ne c cs l [] hc (hls ▸ hsp)]
          intro x hx
          rw [show lastPart [c :: l] = c :: l from rfl] at hx
          rcases List.mem_cons.1 hx with h | h
          · rw [h]; exact hc
          · have h2 := ih
            rw [hsp, hls] at h2
            exact h2 x h
        | cons m ms =>
          rw [splitNl_cons_of_ne c cs l (m :: ms) hc (hls ▸ hsp),
            lastPart_cons_of_ne_nil _ (by simp)]
          have h2 := ih
          rw [hsp, hls, lastPart_cons_of_ne_nil _ (by simp)] at h2
          exact h2

/-- Moving newline-free trailing text out of the last chunk leaves the
decoded pairs unchanged. -/
theorem decodeChunks_split_last :
    ∀ (chunks : List (List Char)) (buf s t : List Char), (∀ c ∈ t, c ≠ '\n') →
      decodeChunks (chunks ++ [s ++ t]) buf = decodeChunks (chunks ++ [s]) buf := by
  intro chunks
  induction chunks with
  | nil =>
    intro buf s t ht
    simp only [List.nil_append, decodeChunks]
    rw [show buf ++ (s ++ t) = (buf ++ s) ++ t from (List.append_assoc buf s t).symm,
      splitNl_append_no_nl (buf ++ s) t ht, initParts_append_single]
  | cons ch chunks ih =>
    intro buf s t ht
    simp only [List.cons_append, decodeChunks]
    exact congrArg _ (ih _ s t ht)

/-- A final chunk with no newline at all contributes nothing: it only joins
the buffer that is discarded at stream end. -/
theorem decodeChunks_drop_trailing :
    ∀ (chunks : List (List Char)) (buf t : List Char),
      (∀ c ∈ t, c ≠ '\n') → (∀ c ∈ buf, c ≠ '\n') →
      decodeChunks (chunks ++ [t]) buf = decodeChunks chunks buf := by
  intro chunks
  induction chunks with
  | nil =>
    intro buf t ht hbuf
    have hall : ∀ c ∈ buf ++ t, c ≠ '\n' := by
      intro c hcm
      rcases List.mem_append.1 hcm with h | h
      · exact hbuf c h
      · exact ht c h
    simp only [List.nil_append, decodeChunks, splitNl_no_nl (buf ++ t) hall]
    rfl
  | cons ch chunks ih =>
    intro buf t ht hbuf
    simp only [List.cons_append, decodeChunks]
    exact congrArg _ (ih _ t ht (lastPart_splitNl_no_nl (buf ++ ch)))

/-- C9: at stream end a buffered partial line yields nothing — whether the
trailing newline-free text sits at the end of the last chunk (first part)
or forms a final chunk of its own (second part), it is discarded and
produces no (event-type, payload) pair. -/
theorem c9_trailing_partial_line_discarded :
    ∀ (chunks : List String) (s t : String),
      (∀ c ∈ t.data, c ≠ '\n') →
      decodeStream (chunks ++ [s ++ t]) = decodeStream (chunks ++ [s]) ∧
      decodeStream (chunks ++ [t]) = decodeStream chunks := by
  intro chunks s t ht
  constructor
  · unfold decodeStream
    rw [List.map_append, List.map_append]
    simp only [List.map_cons, List.map_nil, String.data_append]
    rw [decodeChunks_split_last _ _ s.data t.data ht]
  · unfold decodeStream
    rw [List.map_append]
    simp only [List.map_cons, List.map_nil]
    rw [decodeChunks_drop_trailing _ _ t.data ht (by simp)]

/-- C9 witness: an incomplete data line after a complete done event yields
no extra pair, via the theorem at a concrete stream. -/
theorem c9_trailing_partial_line_discarded_witness :
    decodeStream ["event: done\ndata: \x7b\x7d\n", "data: 2"]
      = decodeStream ["event: done\ndata: \x7b\x7d\n"] :=
  (c9_trailing_partial_line_discarded ["event: done\ndata: \x7b\x7d\n"] "" "data: 2"
    (by decide)).2
